import Mathlib

set_option linter.unusedVariables false

/-! Shallow embedding of the ai-code-review-agent repository (Python sources
under `app/`).  Pure helpers become Lean functions; subprocess/LLM/vector-store
effects are modelled by explicit environments of command results; machine-level
details (float division in the reset ratio) are modelled with exact rationals. -/

/-- ASCII whitespace as stripped by Python `str.strip()` (the repository only
feeds ASCII documentation and tool output through it; Unicode-only whitespace
is not modelled). -/
def pySpace (c : Char) : Bool :=
  c == ' ' || c == '\t' || c == '\n' || c == '\r' || c == '\x0b' || c == '\x0c'

/-- Python `str.strip()` on the underlying character list. -/
def pyStripList (cs : List Char) : List Char :=
  ((cs.dropWhile pySpace).reverse.dropWhile pySpace).reverse

/-- Python `str.strip()`. -/
def pyStrip (s : String) : String :=
  String.mk (pyStripList s.data)

/-- Python `text.split("\n\n")` specialised to the blank-line separator used by
`chunk_text`: leftmost, non-overlapping splits. The accumulator holds the
current field reversed. -/
def splitParasGo : List Char → List Char → List (List Char)
  | [], cur => [cur.reverse]
  | '\n' :: '\n' :: rest, cur => cur.reverse :: splitParasGo rest []
  | c :: rest, cur => splitParasGo rest (c :: cur)

/-- Python `text.split("\n\n")`. -/
def pySplitParas (text : String) : List String :=
  (splitParasGo text.data []).map String.mk

/-- `chunk_text`'s accumulator loop (app/indexer.py, `chunk_text`): iterate the
paragraphs, flushing the current chunk when adding the next paragraph would
exceed the budget. -/
def chunkTextGo (max_chars : Nat) : List String → String → List String
  | [], cur => if pyStrip cur ≠ "" then [pyStrip cur] else []
  | p :: ps, cur =>
    if cur.length + p.length > max_chars then
      (if pyStrip cur ≠ "" then [pyStrip cur] else []) ++ chunkTextGo max_chars ps p
    else
      chunkTextGo max_chars ps (cur ++ (if cur ≠ "" then "\n\n" else "") ++ p)

/-- app/indexer.py `chunk_text(text, max_chars=1000)`: split on blank lines and
greedily pack paragraphs (the Python default for `max_chars` is 1000). -/
def chunk_text (text : String) (max_chars : Nat) : List String :=
  chunkTextGo max_chars (pySplitParas text) ""

theorem length_dropWhile_le' (p : Char → Bool) (l : List Char) :
    (l.dropWhile p).length ≤ l.length := by
  induction l with
  | nil => simp [List.dropWhile]
  | cons c cs ih =>
    by_cases h : p c
    · simp only [List.dropWhile, h]
      exact le_trans ih (by simp)
    · simp [List.dropWhile, h]

theorem pyStripList_length_le (cs : List Char) : (pyStripList cs).length ≤ cs.length := by
  unfold pyStripList
  calc (((cs.dropWhile pySpace).reverse.dropWhile pySpace).reverse).length
      = ((cs.dropWhile pySpace).reverse.dropWhile pySpace).length := by
        rw [List.length_reverse]
    _ ≤ (cs.dropWhile pySpace).reverse.length := length_dropWhile_le' _ _
    _ = (cs.dropWhile pySpace).length := by rw [List.length_reverse]
    _ ≤ cs.length := length_dropWhile_le' _ _

theorem pyStrip_length_le (s : String) : (pyStrip s).length ≤ s.length := by
  show (pyStripList s.data).length ≤ s.data.length
  exact pyStripList_length_le s.data

/-- Soundness of the chunking loop: every emitted chunk is within two separator
characters of the budget, or is the strip of a single over-budget paragraph. -/
theorem chunkTextGo_sound (max_chars : Nat) (P : String → Prop) :
    ∀ (ps : List String) (cur : String),
      (∀ p ∈ ps, P p) →
      (cur.length ≤ max_chars + 2 ∨ P cur) →
      ∀ c ∈ chunkTextGo max_chars ps cur,
        c.length ≤ max_chars + 2 ∨ ∃ p, P p ∧ c = pyStrip p ∧ max_chars < p.length := by
  intro ps
  induction ps with
  | nil =>
    intro cur _ hcur c hc
    unfold chunkTextGo at hc
    by_cases hne : pyStrip cur ≠ ""
    · simp [hne] at hc
      subst hc
      rcases hcur with hlen | hP
      · exact Or.inl (le_trans (pyStrip_length_le cur) hlen)
      · by_cases hbig : cur.length ≤ max_chars + 2
        · exact Or.inl (le_trans (pyStrip_length_le cur) hbig)
        · exact Or.inr ⟨cur, hP, rfl, by omega⟩
    · simp [hne] at hc
  | cons p ps ih =>
    intro cur hps hcur c hc
    unfold chunkTextGo at hc
    by_cases hover : cur.length + p.length > max_chars
    · simp only [if_pos hover, List.mem_append] at hc
      rcases hc with hemit | hrec
      · by_cases hne : pyStrip cur ≠ ""
        · simp [hne] at hemit
          subst hemit
          rcases hcur with hlen | hP
          · exact Or.inl (le_trans (pyStrip_length_le cur) hlen)
          · by_cases hbig : cur.length ≤ max_chars + 2
            · exact Or.inl (le_trans (pyStrip_length_le cur) hbig)
            · exact Or.inr ⟨cur, hP, rfl, by omega⟩
        · simp [hne] at hemit
      · exact ih p (fun q hq => hps q (List.mem_cons_of_mem _ hq))
          (Or.inr (hps p (List.mem_cons_self _ _))) c hrec
    · simp only [if_neg hover] at hc
      refine ih (cur ++ (if cur ≠ "" then "\n\n" else "") ++ p)
        (fun q hq => hps q (List.mem_cons_of_mem _ hq)) (Or.inl ?_) c hc
      have hsep : (if cur ≠ "" then "\n\n" else "").length ≤ 2 := by
        by_cases h : cur ≠ ""
        · rw [if_pos h]; decide
        · rw [if_neg h]; decide
      rw [String.length_append, String.length_append]
      omega

/-- C4 (amended): every chunk produced by `chunk_text` has length at most
`max_chars + 2` (the two characters of a packed blank-line separator are not
counted by the budget check), or is the strip of a single paragraph of the
input whose own length exceeds the budget; and `chunk_text` is a pure function,
so equal inputs give equal chunk sequences. -/
theorem chunk_text_budget (text : String) (max_chars : Nat) (c : String)
    (hc : c ∈ chunk_text text max_chars) :
    chunk_text text max_chars = chunk_text text max_chars ∧
    (c.length ≤ max_chars + 2 ∨
      ∃ p ∈ pySplitParas text, c = pyStrip p ∧ max_chars < p.length) := by
  refine ⟨rfl, ?_⟩
  have := chunkTextGo_sound max_chars (fun p => p ∈ pySplitParas text)
    (pySplitParas text) "" (fun p hp => hp) (Or.inl (by simp)) c hc
  rcases this with h | ⟨p, hp, hcp, hlen⟩
  · exact Or.inl h
  · exact Or.inr ⟨p, hp, hcp, hlen⟩

/-- C4 witness: on the two-paragraph input `"aaaaa\n\nbbbbb"` with budget 10,
the sole chunk obeys the amended bound. -/
theorem chunk_text_budget_witness :
    ("aaaaa\n\nbbbbb" ∈ chunk_text "aaaaa\n\nbbbbb" 10) ∧
    (("aaaaa\n\nbbbbb" : String).length ≤ 10 + 2 ∨
      ∃ p ∈ pySplitParas "aaaaa\n\nbbbbb",
        "aaaaa\n\nbbbbb" = pyStrip p ∧ 10 < p.length) :=
  ⟨by decide, (chunk_text_budget "aaaaa\n\nbbbbb" 10 "aaaaa\n\nbbbbb" (by decide)).2⟩

/-- C4 counterexample: with budget 10, the input `"aaaaa\n\nbbbbb"` (two
5-character paragraphs) is packed into the single chunk `"aaaaa\n\nbbbbb"` of
length 12 > 10, although no single paragraph of the input exceeds the budget —
so a chunk may exceed the budget without being a lone over-budget paragraph. -/
theorem chunk_text_budget_counterexample :
    chunk_text "aaaaa\n\nbbbbb" 10 = ["aaaaa\n\nbbbbb"] ∧
    ("aaaaa\n\nbbbbb" : String).length = 12 ∧
    (∀ p ∈ pySplitParas "aaaaa\n\nbbbbb", p.length ≤ 10) := by
  decide

/-! ### Content-addressed chunk identifiers (app/indexer.py, `make_chunk_id`) -/

/-- UTF-8 encoding of one character, as Python `str.encode("utf-8")` encodes a
code point. -/
def utf8EncodeChar (c : Char) : List Nat :=
  let n := c.toNat
  if n < 128 then [n]
  else if n < 2048 then [192 + n / 64, 128 + n % 64]
  else if n < 65536 then [224 + n / 4096, 128 + n / 64 % 64, 128 + n % 64]
  else [240 + n / 262144, 128 + n / 4096 % 64, 128 + n / 64 % 64, 128 + n % 64]

/-- UTF-8 byte sequence of a string. -/
def utf8Encode (s : String) : List Nat :=
  s.data.foldr (fun c acc => utf8EncodeChar c ++ acc) []

/-- Truncation of a natural number to a 32-bit word. -/
def w32 (n : Nat) : Nat := n % 4294967296

/-- 32-bit left rotation by `b` of a word `n < 2^32`. -/
def rotl32 (b n : Nat) : Nat := n % 2 ^ (32 - b) * 2 ^ b + n / 2 ^ (32 - b)

/-- Big-endian byte list of length `k` representing `n`. -/
def beBytes (k n : Nat) : List Nat :=
  (List.range k).map (fun i => n / 2 ^ (8 * (k - 1 - i)) % 256)

/-- SHA-1 padding: a `0x80` byte, zeros to 56 mod 64, then the 64-bit
big-endian bit length. -/
def sha1Pad (msg : List Nat) : List Nat :=
  let z := (64 - (msg.length + 9) % 64) % 64
  msg ++ [128] ++ List.replicate z 0 ++ beBytes 8 (8 * msg.length)

/-- Big-endian 32-bit word from four bytes. -/
def beWord (bs : List Nat) : Nat := bs.foldl (fun a b => a * 256 + b) 0

/-- The sixteen 32-bit words of one 64-byte block. -/
def blockWords (block : List Nat) : List Nat :=
  (List.range 16).map (fun j => beWord ((block.drop (4 * j)).take 4))

/-- SHA-1 message-schedule extension of 16 words to 80. -/
def sha1Schedule (ws : List Nat) : List Nat :=
  (List.range 80).foldl
    (fun acc i =>
      if i < 16 then acc ++ [ws.getD i 0]
      else acc ++ [rotl32 1 (Nat.xor (acc.getD (i - 3) 0)
        (Nat.xor (acc.getD (i - 8) 0)
          (Nat.xor (acc.getD (i - 14) 0) (acc.getD (i - 16) 0))))])
    []

/-- One SHA-1 compression round. -/
def sha1Round (i wi : Nat) (st : Nat × Nat × Nat × Nat × Nat) :
    Nat × Nat × Nat × Nat × Nat :=
  let a := st.1
  let b := st.2.1
  let c := st.2.2.1
  let d := st.2.2.2.1
  let e := st.2.2.2.2
  let f :=
    if i < 20 then Nat.lor (Nat.land b c) (Nat.land (Nat.xor b 4294967295) d)
    else if i < 40 then Nat.xor b (Nat.xor c d)
    else if i < 60 then Nat.lor (Nat.land b c) (Nat.lor (Nat.land b d) (Nat.land c d))
    else Nat.xor b (Nat.xor c d)
  let k :=
    if i < 20 then 1518500249
    else if i < 40 then 1859775393
    else if i < 60 then 2400959708
    else 3395469782
  (w32 (rotl32 5 a + f + e + k + wi), a, rotl32 30 b, c, d)

/-- SHA-1 compression of one 64-byte block into the running state. -/
def sha1Block (h : Nat × Nat × Nat × Nat × Nat) (block : List Nat) :
    Nat × Nat × Nat × Nat × Nat :=
  let ws := sha1Schedule (blockWords block)
  let st := (List.range 80).foldl (fun st i => sha1Round i (ws.getD i 0) st) h
  (w32 (h.1 + st.1), w32 (h.2.1 + st.2.1), w32 (h.2.2.1 + st.2.2.1),
    w32 (h.2.2.2.1 + st.2.2.2.1), w32 (h.2.2.2.2 + st.2.2.2.2))

/-- Fold SHA-1 compression over the (already padded) byte list, 64 bytes at a
time. -/
def sha1Blocks (h : Nat × Nat × Nat × Nat × Nat) : List Nat → Nat × Nat × Nat × Nat × Nat
  | [] => h
  | b :: rest => sha1Blocks (sha1Block h ((b :: rest).take 64)) (rest.drop 63)
termination_by l => l.length
decreasing_by
  simp [List.length_drop]
  omega

/-- Lowercase hexadecimal digit. -/
def hexDigit (n : Nat) : Char := Char.ofNat (if n < 10 then 48 + n else 87 + n)

/-- Eight lowercase hex digits of a 32-bit word, most significant first. -/
def hexWord32 (n : Nat) : List Char :=
  (List.range 8).map (fun i => hexDigit (n / 16 ^ (7 - i) % 16))

/-- `hashlib.sha1(bytes).hexdigest()`. -/
def sha1Hex (msg : List Nat) : String :=
  let h := sha1Blocks (1732584193, 4023233417, 2562383102, 271733878, 3285377520)
    (sha1Pad msg)
  String.mk (hexWord32 h.1 ++ hexWord32 h.2.1 ++ hexWord32 h.2.2.1 ++
    hexWord32 h.2.2.2.1 ++ hexWord32 h.2.2.2.2)

/-- The pre-hash key string built by `make_chunk_id`:
`f"{repo_url}|{file_path}|{chunk_text_}"`. -/
def chunkRaw (repo_url file_path chunk_text_ : String) : String :=
  repo_url ++ "|" ++ file_path ++ "|" ++ chunk_text_

/-- app/indexer.py `make_chunk_id`: SHA-1 hex digest of the UTF-8 encoding of
the `repo|path|text` key. -/
def make_chunk_id (repo_url file_path chunk_text_ : String) : String :=
  sha1Hex (utf8Encode (chunkRaw repo_url file_path chunk_text_))

theorem string_data_inj {s t : String} (h : s.data = t.data) : s = t :=
  String.ext h

theorem string_data_append (a b : String) : (a ++ b).data = a.data ++ b.data := by
  cases a
  cases b
  rfl

theorem chunkRaw_data (r p t : String) :
    (chunkRaw r p t).data = r.data ++ '|' :: (p.data ++ '|' :: t.data) := by
  simp [chunkRaw, string_data_append, List.append_assoc]

theorem chunkRaw_inj1 {r r' p t : String} (h : chunkRaw r p t = chunkRaw r' p t) :
    r = r' := by
  have hd := congrArg String.data h
  rw [chunkRaw_data, chunkRaw_data] at hd
  exact string_data_inj (List.append_cancel_right hd)

theorem chunkRaw_inj2 {r p p' t : String} (h : chunkRaw r p t = chunkRaw r p' t) :
    p = p' := by
  have hd := congrArg String.data h
  rw [chunkRaw_data, chunkRaw_data] at hd
  have h1 := List.append_cancel_left hd
  have h2 : p.data ++ '|' :: t.data = p'.data ++ '|' :: t.data := by
    injection h1
  exact string_data_inj (List.append_cancel_right h2)

theorem chunkRaw_inj3 {r p t t' : String} (h : chunkRaw r p t = chunkRaw r p t') :
    t = t' := by
  have hd := congrArg String.data h
  rw [chunkRaw_data, chunkRaw_data] at hd
  have h1 := List.append_cancel_left hd
  have h2 : p.data ++ '|' :: t.data = p.data ++ '|' :: t'.data := by
    injection h1
  have h3 := List.append_cancel_left h2
  have h4 : t.data = t'.data := by
    injection h3
  exact string_data_inj h4

/-- C8: `make_chunk_id` is a deterministic function of exactly the triple
`(repo_url, file_path, chunk_text)`: identical inputs give the identical
identifier, and changing any single component (the other two fixed) changes the
hashed key string — hence the identifier changes unless the two distinct keys
are a SHA-1 collision. -/
theorem make_chunk_id_content_addressed (r r' p p' t t' : String)
    (hr : r ≠ r') (hp : p ≠ p') (ht : t ≠ t') :
    make_chunk_id r p t = make_chunk_id r p t ∧
    chunkRaw r p t ≠ chunkRaw r' p t ∧
    chunkRaw r p t ≠ chunkRaw r p' t ∧
    chunkRaw r p t ≠ chunkRaw r p t' ∧
    (make_chunk_id r p t ≠ make_chunk_id r' p t ∨
      ∃ a b : String, a ≠ b ∧ sha1Hex (utf8Encode a) = sha1Hex (utf8Encode b)) ∧
    (make_chunk_id r p t ≠ make_chunk_id r p' t ∨
      ∃ a b : String, a ≠ b ∧ sha1Hex (utf8Encode a) = sha1Hex (utf8Encode b)) ∧
    (make_chunk_id r p t ≠ make_chunk_id r p t' ∨
      ∃ a b : String, a ≠ b ∧ sha1Hex (utf8Encode a) = sha1Hex (utf8Encode b)) := by
  refine ⟨rfl, fun h => hr (chunkRaw_inj1 h), fun h => hp (chunkRaw_inj2 h),
    fun h => ht (chunkRaw_inj3 h), ?_, ?_, ?_⟩
  · by_cases h : make_chunk_id r p t = make_chunk_id r' p t
    · exact Or.inr ⟨chunkRaw r p t, chunkRaw r' p t, fun hh => hr (chunkRaw_inj1 hh), h⟩
    · exact Or.inl h
  · by_cases h : make_chunk_id r p t = make_chunk_id r p' t
    · exact Or.inr ⟨chunkRaw r p t, chunkRaw r p' t, fun hh => hp (chunkRaw_inj2 hh), h⟩
    · exact Or.inl h
  · by_cases h : make_chunk_id r p t = make_chunk_id r p t'
    · exact Or.inr ⟨chunkRaw r p t, chunkRaw r p t', fun hh => ht (chunkRaw_inj3 hh), h⟩
    · exact Or.inl h

/-- C8 witness: instantiation at two concrete repos, paths and texts. -/
theorem make_chunk_id_content_addressed_witness :
    make_chunk_id "https://g/r1" "readme.md" "hello" =
      make_chunk_id "https://g/r1" "readme.md" "hello" ∧
    chunkRaw "https://g/r1" "readme.md" "hello" ≠ chunkRaw "https://g/r2" "readme.md" "hello" ∧
    chunkRaw "https://g/r1" "readme.md" "hello" ≠ chunkRaw "https://g/r1" "contributing.md" "hello" ∧
    chunkRaw "https://g/r1" "readme.md" "hello" ≠ chunkRaw "https://g/r1" "readme.md" "world" ∧
    (make_chunk_id "https://g/r1" "readme.md" "hello" ≠ make_chunk_id "https://g/r2" "readme.md" "hello" ∨
      ∃ a b : String, a ≠ b ∧ sha1Hex (utf8Encode a) = sha1Hex (utf8Encode b)) ∧
    (make_chunk_id "https://g/r1" "readme.md" "hello" ≠ make_chunk_id "https://g/r1" "contributing.md" "hello" ∨
      ∃ a b : String, a ≠ b ∧ sha1Hex (utf8Encode a) = sha1Hex (utf8Encode b)) ∧
    (make_chunk_id "https://g/r1" "readme.md" "hello" ≠ make_chunk_id "https://g/r1" "readme.md" "world" ∨
      ∃ a b : String, a ≠ b ∧ sha1Hex (utf8Encode a) = sha1Hex (utf8Encode b)) :=
  make_chunk_id_content_addressed "https://g/r1" "https://g/r2" "readme.md" "contributing.md"
    "hello" "world" (by decide) (by decide) (by decide)

/-! ### JSON parsing (Python `json.loads`, as used by app/agent.py), and the
summarizer's extraction policy. -/

/-- JSON values as produced by `json.loads`. Python returns `int` for integer
lexemes and `float` otherwise; floats are modelled exactly as
`mantissa * 10 ^ exp10` (IEEE rounding is not modelled — no claim depends on
numeric values). -/
inductive JsonVal where
  | null
  | bool (b : Bool)
  | numInt (n : Int)
  | numFloat (mantissa : Int) (exp10 : Int)
  | str (s : String)
  | arr (xs : List JsonVal)
  | obj (fields : List (String × JsonVal))

/-- JSON inter-token whitespace. -/
def jsonWs (c : Char) : Bool := c == ' ' || c == '\t' || c == '\n' || c == '\r'

/-- Skip JSON whitespace. -/
def skipWs (cs : List Char) : List Char := cs.dropWhile jsonWs

/-- Hexadecimal digit value. -/
def hexVal (c : Char) : Option Nat :=
  if '0' ≤ c ∧ c ≤ '9' then some (c.toNat - 48)
  else if 'a' ≤ c ∧ c ≤ 'f' then some (c.toNat - 87)
  else if 'A' ≤ c ∧ c ≤ 'F' then some (c.toNat - 55)
  else none

/-- Body of a JSON string after the opening quote, with the standard escapes
(a lone surrogate escape is modelled as the raw code unit; Python's pairing of
surrogates is not modelled — no claim involves them). Unescaped control
characters are rejected, as in strict-mode `json.loads`. -/
def parseStringBody : List Char → Option (List Char × List Char)
  | [] => none
  | '"' :: rest => some ([], rest)
  | '\\' :: '"' :: rest => (parseStringBody rest).map (fun r => ('"' :: r.1, r.2))
  | '\\' :: '\\' :: rest => (parseStringBody rest).map (fun r => ('\\' :: r.1, r.2))
  | '\\' :: '/' :: rest => (parseStringBody rest).map (fun r => ('/' :: r.1, r.2))
  | '\\' :: 'b' :: rest => (parseStringBody rest).map (fun r => ('\x08' :: r.1, r.2))
  | '\\' :: 'f' :: rest => (parseStringBody rest).map (fun r => ('\x0c' :: r.1, r.2))
  | '\\' :: 'n' :: rest => (parseStringBody rest).map (fun r => ('\n' :: r.1, r.2))
  | '\\' :: 'r' :: rest => (parseStringBody rest).map (fun r => ('\r' :: r.1, r.2))
  | '\\' :: 't' :: rest => (parseStringBody rest).map (fun r => ('\t' :: r.1, r.2))
  | '\\' :: 'u' :: h1 :: h2 :: h3 :: h4 :: rest =>
    match hexVal h1, hexVal h2, hexVal h3, hexVal h4 with
    | some a, some b, some c, some d =>
      (parseStringBody rest).map
        (fun r => (Char.ofNat (4096 * a + 256 * b + 16 * c + d) :: r.1, r.2))
    | _, _, _, _ => none
  | '\\' :: _ => none
  | c :: rest =>
    if c.toNat < 32 then none
    else (parseStringBody rest).map (fun r => (c :: r.1, r.2))

/-- Is `c` a decimal digit? -/
def isDig (c : Char) : Bool := '0' ≤ c && c ≤ '9'

/-- Leading run of decimal digit values and the remainder. -/
def takeDigits : List Char → List Nat × List Char
  | [] => ([], [])
  | c :: rest =>
    if isDig c then
      let r := takeDigits rest
      ((c.toNat - 48) :: r.1, r.2)
    else ([], c :: rest)

/-- Value of a big-endian digit list. -/
def digitsVal (ds : List Nat) : Nat := ds.foldl (fun a d => a * 10 + d) 0

/-- Exponent suffix after `e`/`E`. -/
def parseExpTail (cs : List Char) : Option (Option Int × List Char) :=
  let signed : Int × List Char :=
    match cs with
    | '+' :: rest => (1, rest)
    | '-' :: rest => (-1, rest)
    | _ => (1, cs)
  match takeDigits signed.2 with
  | ([], _) => none
  | (ds, rest) => some (some (signed.1 * (digitsVal ds : Int)), rest)

/-- A JSON number token (`-?(0|[1-9][0-9]*)(\.[0-9]+)?([eE][+-]?[0-9]+)?`);
an integer lexeme yields a Python `int`, otherwise a `float`. -/
def parseNumber (cs : List Char) : Option (JsonVal × List Char) :=
  let signed : Bool × List Char :=
    match cs with
    | '-' :: rest => (true, rest)
    | _ => (false, cs)
  let neg := signed.1
  match takeDigits signed.2 with
  | ([], _) => none
  | (d :: ds, rest1) =>
    if d = 0 ∧ ds ≠ [] then none
    else
      let ipart := digitsVal (d :: ds)
      let fracRes : Option (List Nat × List Char) :=
        match rest1 with
        | '.' :: r2 =>
          match takeDigits r2 with
          | ([], _) => none
          | (fds, r3) => some (fds, r3)
        | _ => some ([], rest1)
      match fracRes with
      | none => none
      | some (fds, rest2) =>
        let expRes : Option (Option Int × List Char) :=
          match rest2 with
          | 'e' :: r3 => parseExpTail r3
          | 'E' :: r3 => parseExpTail r3
          | _ => some (none, rest2)
        match expRes with
        | none => none
        | some (oexp, rest3) =>
          if fds = [] ∧ oexp = none then
            some (.numInt (if neg then -(ipart : Int) else (ipart : Int)), rest3)
          else
            let mant := digitsVal ((d :: ds) ++ fds)
            some (.numFloat (if neg then -(mant : Int) else (mant : Int))
              ((oexp.getD 0) - (fds.length : Int)), rest3)

mutual
def parseJsonVal : Nat → List Char → Option (JsonVal × List Char)
  | 0, _ => none
  | Nat.succ fuel, cs =>
    match skipWs cs with
    | 'n' :: 'u' :: 'l' :: 'l' :: rest => some (.null, rest)
    | 't' :: 'r' :: 'u' :: 'e' :: rest => some (.bool true, rest)
    | 'f' :: 'a' :: 'l' :: 's' :: 'e' :: rest => some (.bool false, rest)
    | '"' :: rest => (parseStringBody rest).map (fun r => (.str (String.mk r.1), r.2))
    | '[' :: rest =>
      match skipWs rest with
      | ']' :: rest2 => some (.arr [], rest2)
      | _ => (parseJsonItems fuel rest).map (fun r => (.arr r.1, r.2))
    | '{' :: rest =>
      match skipWs rest with
      | '}' :: rest2 => some (.obj [], rest2)
      | _ => (parseJsonMembers fuel rest).map (fun r => (.obj r.1, r.2))
    | other => parseNumber other
def parseJsonItems : Nat → List Char → Option (List JsonVal × List Char)
  | 0, _ => none
  | Nat.succ fuel, cs =>
    match parseJsonVal fuel cs with
    | none => none
    | some (v, rest) =>
      match skipWs rest with
      | ',' :: rest2 => (parseJsonItems fuel rest2).map (fun r => (v :: r.1, r.2))
      | ']' :: rest2 => some ([v], rest2)
      | _ => none
def parseJsonMembers : Nat → List Char → Option (List (String × JsonVal) × List Char)
  | 0, _ => none
  | Nat.succ fuel, cs =>
    match skipWs cs with
    | '"' :: rest =>
      match parseStringBody rest with
      | none => none
      | some (k, rest1) =>
        match skipWs rest1 with
        | ':' :: rest2 =>
          match parseJsonVal fuel rest2 with
          | none => none
          | some (v, rest3) =>
            match skipWs rest3 with
            | ',' :: rest4 =>
              (parseJsonMembers fuel rest4).map (fun r => ((String.mk k, v) :: r.1, r.2))
            | '}' :: rest4 => some ([(String.mk k, v)], rest4)
            | _ => none
        | _ => none
    | _ => none
end

/-- Python `json.loads`: parse a complete document (trailing whitespace only);
`none` models a raised `JSONDecodeError`. -/
def json_loads (s : String) : Option JsonVal :=
  match parseJsonVal (s.data.length + 1) s.data with
  | some (v, rest) => if skipWs rest = [] then some v else none
  | none => none

/-- Field access on a parsed object, with Python dict semantics (the last
duplicate key wins). -/
def jsonGet (v : JsonVal) (key : String) : Option JsonVal :=
  match v with
  | .obj fields => ((fields.filter (fun kv => kv.1 == key)).getLast?).map (fun kv => kv.2)
  | _ => none

/-- Does the list contain a right brace? -/
def hasRBrace (cs : List Char) : Bool := cs.contains '}'

/-- Everything up to and including the last right brace of `l`. -/
def upToLastRBrace (l : List Char) : List Char :=
  (l.reverse.dropWhile (fun c => c != '}')).reverse

/-- `re.search` of the pattern "backslash-x7b dot-star backslash-x7d" with
`re.S` (app/agent.py line 103): the match runs from the first left brace that
is followed by some right brace to the last right brace (greedy dot-all). -/
def extractBracesList : List Char → Option (List Char)
  | [] => none
  | c :: rest =>
    if c == '{' && hasRBrace rest then some ('{' :: upToLastRBrace rest)
    else extractBracesList rest

/-- The brace-substring extraction on strings. -/
def extractBraces (content : String) : Option String :=
  (extractBracesList content.data).map String.mk

/-- The fixed fallback dict of `summarize_review_events_with_llm`
(app/agent.py lines 108-115). -/
def fallbackSummary (content : String) : JsonVal :=
  .obj [("summary", .str "LLM summarization failed to parse. Returning raw content."),
        ("issues", .arr []),
        ("suggested_fixes", .arr []),
        ("green_signal", .bool false),
        ("confidence", .str "low"),
        ("raw", .str content)]

/-- The parsing stage of `summarize_review_events_with_llm` applied to the raw
LLM response `content` (app/agent.py lines 101-115): inside `try`, search for
the greedy brace-delimited substring and `json.loads` it if present, else
`json.loads` the whole text; any parse failure lands in the `except` fallback.
The model is a total function — the stage never raises. -/
def summarize_review_parse (content : String) : JsonVal :=
  match extractBraces content with
  | some s =>
    match json_loads s with
    | some v => v
    | none => fallbackSummary content
  | none =>
    match json_loads content with
    | some v => v
    | none => fallbackSummary content

theorem dropWhile_rbrace {l : List Char} (h : '}' ∈ l) :
    ∃ tl, l.dropWhile (fun c => c != '}') = '}' :: tl := by
  induction l with
  | nil => cases h
  | cons c rest ih =>
    by_cases hc : c = '}'
    · subst hc
      exact ⟨rest, by simp [List.dropWhile]⟩
    · have hmem : '}' ∈ rest := by
        rcases List.mem_cons.mp h with h1 | h1
        · exact absurd h1.symm hc
        · exact h1
      rcases ih hmem with ⟨tl, htl⟩
      refine ⟨tl, ?_⟩
      have hbc : (c != '}') = true := by
        simp only [bne_iff_ne, ne_eq]
        exact hc
      rw [List.dropWhile_cons, if_pos hbc]
      exact htl

/-- Any successful brace extraction returns a brace-delimited substring of the
input. -/
theorem extractBracesList_spec :
    ∀ (l r : List Char), extractBracesList l = some r →
      (∃ pre post, l = pre ++ r ++ post) ∧ ∃ mid, r = '{' :: (mid ++ ['}']) := by
  intro l
  induction l with
  | nil => intro r h; simp [extractBracesList] at h
  | cons c rest ih =>
    intro r h
    unfold extractBracesList at h
    by_cases hcond : (c == '{' && hasRBrace rest) = true
    · rw [if_pos hcond] at h
      have hr : r = '{' :: upToLastRBrace rest := by
        injection h with h'
        exact h'.symm
      have hc : c = '{' := by
        have := (Bool.and_eq_true _ _).mp hcond
        exact beq_iff_eq.mp this.1
      have hmem : '}' ∈ rest := by
        have := ((Bool.and_eq_true _ _).mp hcond).2
        exact List.mem_of_elem_eq_true this
      have hsplit :
          (rest.reverse.dropWhile (fun c => c != '}')).reverse ++
            (rest.reverse.takeWhile (fun c => c != '}')).reverse = rest := by
        have h0 := List.takeWhile_append_dropWhile
          (p := fun c => c != '}') (l := rest.reverse)
        have h1 := congrArg List.reverse h0
        rw [List.reverse_append, List.reverse_reverse] at h1
        exact h1
      constructor
      · refine ⟨[], (rest.reverse.takeWhile (fun c => c != '}')).reverse, ?_⟩
        rw [hr, hc]
        simp only [List.nil_append, upToLastRBrace]
        rw [List.cons_append, hsplit]
      · have hrb : '}' ∈ rest.reverse := List.mem_reverse.mpr hmem
        rcases dropWhile_rbrace hrb with ⟨tl, htl⟩
        refine ⟨tl.reverse, ?_⟩
        rw [hr]
        unfold upToLastRBrace
        rw [htl]
        simp
    · rw [if_neg hcond] at h
      rcases ih r h with ⟨⟨pre, post, hd⟩, hform⟩
      exact ⟨⟨c :: pre, post, by simp [hd, List.append_assoc]⟩, hform⟩

/-- C2: when no JSON value can be parsed from the LLM response — neither from
the whole string nor from any brace-delimited substring of it — the
summarizer's parse stage returns (it is a total function, so it cannot raise)
the fixed fallback summary: confidence "low", issues [], green_signal false,
suggested_fixes [], and the raw response text preserved under "raw". -/
theorem summarize_unparseable_fallback (content : String)
    (hwhole : json_loads content = none)
    (hsub : ∀ s : String,
      (∃ pre post : List Char, content.data = pre ++ s.data ++ post) →
      (∃ mid : List Char, s.data = '{' :: (mid ++ ['}'])) →
      json_loads s = none) :
    summarize_review_parse content = fallbackSummary content ∧
    jsonGet (summarize_review_parse content) "confidence" = some (.str "low") ∧
    jsonGet (summarize_review_parse content) "issues" = some (.arr []) ∧
    jsonGet (summarize_review_parse content) "green_signal" = some (.bool false) ∧
    jsonGet (summarize_review_parse content) "suggested_fixes" = some (.arr []) ∧
    jsonGet (summarize_review_parse content) "raw" = some (.str content) := by
  have hmain : summarize_review_parse content = fallbackSummary content := by
    unfold summarize_review_parse
    cases hx : extractBraces content with
    | none =>
      show (match json_loads content with
        | some v => v
        | none => fallbackSummary content) = fallbackSummary content
      rw [hwhole]
    | some s =>
      have hlist : extractBracesList content.data = some s.data := by
        unfold extractBraces at hx
        cases hy : extractBracesList content.data with
        | none => rw [hy] at hx; simp at hx
        | some r =>
          rw [hy] at hx
          have hsr : String.mk r = s := by simpa using hx
          rw [← hsr]
      rcases extractBracesList_spec content.data s.data hlist with ⟨hdecomp, hform⟩
      show (match json_loads s with
        | some v => v
        | none => fallbackSummary content) = fallbackSummary content
      rw [hsub s hdecomp hform]
  refine ⟨hmain, ?_, ?_, ?_, ?_, ?_⟩ <;> rw [hmain] <;> rfl

/-- C2 witness: the response "hello" contains no brace-delimited substring and
is not JSON, so the fallback is produced. -/
theorem summarize_unparseable_fallback_witness :
    summarize_review_parse "hello" = fallbackSummary "hello" ∧
    jsonGet (summarize_review_parse "hello") "confidence" = some (.str "low") ∧
    jsonGet (summarize_review_parse "hello") "issues" = some (.arr []) ∧
    jsonGet (summarize_review_parse "hello") "green_signal" = some (.bool false) ∧
    jsonGet (summarize_review_parse "hello") "suggested_fixes" = some (.arr []) ∧
    jsonGet (summarize_review_parse "hello") "raw" = some (.str "hello") :=
  summarize_unparseable_fallback "hello" rfl
    (fun s hsubstr hform => by
      exfalso
      obtain ⟨pre, post, hd⟩ := hsubstr
      obtain ⟨mid, hf⟩ := hform
      have hmem : '{' ∈ ("hello" : String).data := by
        rw [hd]
        refine List.mem_append.mpr (Or.inl ?_)
        refine List.mem_append.mpr (Or.inr ?_)
        rw [hf]
        exact List.mem_cons_self _ _
      have : ¬ ('{' ∈ ("hello" : String).data) := by decide
      exact this hmem)

/-- C7 counterexample: the response consisting of the five characters
quote-brace-a-brace-quote is valid JSON as a whole (a JSON string), but the
code searches for a brace substring FIRST, finds one that is not valid JSON,
and falls back — the whole response is never strictly parsed, contradicting
the claimed strict-parse-first policy. -/
theorem summarize_parse_order_counterexample :
    json_loads "\"{a}\"" = some (JsonVal.str "{a}") ∧
    extractBraces "\"{a}\"" = some "{a}" ∧
    json_loads "{a}" = none ∧
    summarize_review_parse "\"{a}\"" = fallbackSummary "\"{a}\"" ∧
    summarize_review_parse "\"{a}\"" ≠ JsonVal.str "{a}" :=
  ⟨rfl, rfl, rfl, rfl, fun h => by
    rw [show summarize_review_parse "\"{a}\"" = fallbackSummary "\"{a}\"" from rfl] at h
    exact JsonVal.noConfusion h⟩

/-- C7 (amended): the summarizer attempts the brace-substring extraction FIRST
and, when a brace-delimited substring exists, parses that substring (never the
whole response); the strict whole-string parse is attempted only when the
response contains no brace-delimited substring. -/
theorem summarize_parse_order_amended (content s : String) (v w : JsonVal) :
    (extractBraces content = some s → json_loads s = some v →
      summarize_review_parse content = v) ∧
    (extractBraces content = none → json_loads content = some w →
      summarize_review_parse content = w) := by
  constructor
  · intro h1 h2
    unfold summarize_review_parse
    rw [h1]
    show (match json_loads s with
      | some v => v
      | none => fallbackSummary content) = v
    rw [h2]
  · intro h1 h2
    unfold summarize_review_parse
    rw [h1]
    show (match json_loads content with
      | some v => v
      | none => fallbackSummary content) = w
    rw [h2]

/-- C7 amended witness: a response with an embedded empty JSON object is
parsed from the substring; a plain number response (no braces) is parsed
whole. -/
theorem summarize_parse_order_amended_witness :
    summarize_review_parse "x\x7b\x7d" = JsonVal.obj [] ∧
    summarize_review_parse "7" = JsonVal.numInt 7 :=
  ⟨(summarize_parse_order_amended "x\x7b\x7d" "\x7b\x7d" (JsonVal.obj []) (JsonVal.obj [])).1
      (by decide) rfl,
    (summarize_parse_order_amended "7" "" (JsonVal.numInt 7) (JsonVal.numInt 7)).2
      (by decide) rfl⟩

/-! ### Review pipeline (app/review.py) -/

/-- Result triple of `run_command`: `(returncode, stdout, stderr)`. -/
structure CmdResult where
  code : Int
  out : String
  err : String

/-- The external command results observed by one `stream_review` run, in call
order: the initial diff (both variants, selected by `staged`), the name-only
diff listing, the per-file tool runs before fixes, the per-file tool runs
after fixes (the tools run again on the mutated working tree), and the
recomputed post-fix diff. -/
structure ReviewEnv where
  diffHead : CmdResult
  diffCached : CmdResult
  nameOnly : CmdResult
  flake8 : String → CmdResult
  pylint : String → CmdResult
  autopep8 : String → CmdResult
  flake8After : String → CmdResult
  pylintAfter : String → CmdResult
  postDiffHead : CmdResult
  postDiffCached : CmdResult

/-- `get_git_diff` (app/review.py lines 58-68): raises on a non-zero exit code
(modelled as `Except.error` with the exception message), else returns the
stripped stdout. -/
def get_git_diff (res : CmdResult) : Except String String :=
  if res.code ≠ 0 then Except.error ("Failed to get git diff: " ++ res.err)
  else Except.ok (pyStrip res.out)

/-- Python `str.splitlines` (ASCII line terminators). -/
def pySplitlinesGo : List Char → List Char → List String
  | [], cur => if cur.isEmpty then [] else [String.mk cur.reverse]
  | '\r' :: '\n' :: rest, cur => String.mk cur.reverse :: pySplitlinesGo rest []
  | '\n' :: rest, cur => String.mk cur.reverse :: pySplitlinesGo rest []
  | '\r' :: rest, cur => String.mk cur.reverse :: pySplitlinesGo rest []
  | c :: rest, cur => pySplitlinesGo rest (c :: cur)

/-- Python `str.splitlines`. -/
def pySplitlines (s : String) : List String := pySplitlinesGo s.data []

/-- The changed-file list of `stream_review` (app/review.py line 141):
`[line.strip() for line in out.splitlines() if line.strip()]` over the stdout
of `git diff --name-only HEAD`. -/
def changedFilesOf (out : String) : List String :=
  ((pySplitlines out).map pyStrip).filter (fun l => l != "")

/-- Does `l` start with `pat`? -/
def hasPre : List Char → List Char → Bool
  | _, [] => true
  | [], _ :: _ => false
  | a :: as, b :: bs => a == b && hasPre as bs

/-- Python `str.endswith`. -/
def pyEndsWith (s suf : String) : Bool := hasPre s.data.reverse suf.data.reverse

/-- Does `hay` contain `needle` as a contiguous substring (Python `in`)? -/
def hasSub : List Char → List Char → Bool
  | [], needle => needle.isEmpty
  | c :: rest, needle => hasPre (c :: rest) needle || hasSub rest needle

/-- Python `needle in hay` on strings. -/
def strContains (hay needle : String) : Bool := hasSub hay.data needle.data

/-- A lint or bug-check record yielded by a runner (tool tag omitted: it is
fixed per runner). -/
structure ToolRecord where
  file : String
  output : String
  returncode : Int
deriving DecidableEq

/-- `run_flake8_on_files` (app/review.py lines 71-81): one record per file
ending in ".py", in input order; other files are silently skipped. The
function argument gives the tool's result per file. -/
def run_flake8_on_files (flake8 : String → CmdResult) : List String → List ToolRecord
  | [] => []
  | f :: fs =>
    if pyEndsWith f ".py" then
      { file := f, output := pyStrip (flake8 f).out, returncode := (flake8 f).code }
        :: run_flake8_on_files flake8 fs
    else run_flake8_on_files flake8 fs

/-- `run_bug_checks` (app/review.py lines 84-94): same shape with pylint. -/
def run_bug_checks (pylint : String → CmdResult) : List String → List ToolRecord
  | [] => []
  | f :: fs =>
    if pyEndsWith f ".py" then
      { file := f, output := pyStrip (pylint f).out, returncode := (pylint f).code }
        :: run_bug_checks pylint fs
    else run_bug_checks pylint fs

/-- An autofix record; `returncode` is present only in the failure dict. -/
structure AutofixRecord where
  file : String
  fixed : Bool
  output : String
  returncode : Option Int
deriving DecidableEq

/-- `auto_fix_files` (app/review.py lines 97-117): per ".py" file, exit code 0
yields `fixed := true` with stdout, otherwise `fixed := false` with stderr and
the exit code. -/
def auto_fix_files (autopep8 : String → CmdResult) : List String → List AutofixRecord
  | [] => []
  | f :: fs =>
    if pyEndsWith f ".py" then
      (if (autopep8 f).code = 0 then
        { file := f, fixed := true, output := pyStrip (autopep8 f).out, returncode := none }
      else
        { file := f, fixed := false, output := pyStrip (autopep8 f).err,
          returncode := some (autopep8 f).code }) :: auto_fix_files autopep8 fs
    else auto_fix_files autopep8 fs

/-- The tagged event dicts yielded by `stream_review`, as a closed variant
type. -/
inductive ReviewEvent where
  | info (message : String)
  | originalDiff (diff : String)
  | changedFiles (files : List String)
  | lint (stage : String) (file : String) (output : String) (returncode : Int)
  | bugcheck (stage : String) (file : String) (output : String) (returncode : Int)
  | autofix (file : String) (fixed : Bool) (output : String) (returncode : Option Int)
  | postFixDiff (diff : String)
  | warning (message : String)
deriving DecidableEq

/-- The post-fix diff step of `stream_review` (app/review.py lines 166-172):
recompute the diff with the same `staged` flag; emit it when non-empty; a
raised exception is caught and becomes a warning event. -/
def postFixTail (env : ReviewEnv) (staged : Bool) : List ReviewEvent :=
  match get_git_diff (if staged then env.postDiffCached else env.postDiffHead) with
  | Except.ok post_diff =>
    if post_diff ≠ "" then [ReviewEvent.postFixDiff post_diff] else []
  | Except.error e => [ReviewEvent.warning ("Could not get post-fix diff: " ++ e)]

/-- `stream_review` (app/review.py lines 120-174) as the list of all yielded
events; `Except.error` models an exception escaping the generator (only the
initial `get_git_diff` call can raise — the post-fix one is wrapped in
`try/except` and becomes a warning event). -/
def stream_review (env : ReviewEnv) (staged auto_fix : Bool) :
    Except String (List ReviewEvent) :=
  match get_git_diff (if staged then env.diffCached else env.diffHead) with
  | Except.error e => Except.error e
  | Except.ok diff_text =>
    if diff_text = "" then Except.ok [ReviewEvent.info "No changes found to review."]
    else
      let changed := changedFilesOf env.nameOnly.out
      let beforeLint := (run_flake8_on_files env.flake8 changed).map
        (fun r => ReviewEvent.lint "before_fix" r.file r.output r.returncode)
      let beforeBug := (run_bug_checks env.pylint changed).map
        (fun r => ReviewEvent.bugcheck "before_fix" r.file r.output r.returncode)
      let fixPart :=
        if auto_fix then
          [ReviewEvent.info "Applying automatic fixes..."]
          ++ (auto_fix_files env.autopep8 changed).map
              (fun r => ReviewEvent.autofix r.file r.fixed r.output r.returncode)
          ++ [ReviewEvent.info "Re-running checks after fixes..."]
          ++ (run_flake8_on_files env.flake8After changed).map
              (fun r => ReviewEvent.lint "after_fix" r.file r.output r.returncode)
          ++ (run_bug_checks env.pylintAfter changed).map
              (fun r => ReviewEvent.bugcheck "after_fix" r.file r.output r.returncode)
          ++ postFixTail env staged
        else []
      Except.ok ([ReviewEvent.originalDiff diff_text, ReviewEvent.changedFiles changed]
        ++ beforeLint ++ beforeBug ++ fixPart)

/-- C3: when the computed diff text is empty (the diff command succeeded and
its stripped stdout is empty), the stream consists of exactly the single
terminal info event — no original_diff, changed_files, lint, bugcheck,
autofix, post-fix or warning event follows — for every combination of the
staged and auto_fix flags. -/
theorem stream_review_empty_diff (env : ReviewEnv) (staged auto_fix : Bool)
    (h : get_git_diff (if staged then env.diffCached else env.diffHead) = Except.ok "") :
    stream_review env staged auto_fix =
      Except.ok [ReviewEvent.info "No changes found to review."] := by
  unfold stream_review
  rw [h]
  rfl

/-- C3 witness: a concrete environment whose diff command returns empty
output, with staged = false and auto_fix = true. -/
theorem stream_review_empty_diff_witness :
    stream_review
      ⟨⟨0, "", ""⟩, ⟨0, "", ""⟩, ⟨0, "ignored.py\n", ""⟩,
        (fun _ => ⟨0, "", ""⟩), (fun _ => ⟨0, "", ""⟩), (fun _ => ⟨0, "", ""⟩),
        (fun _ => ⟨0, "", ""⟩), (fun _ => ⟨0, "", ""⟩), ⟨0, "", ""⟩, ⟨0, "", ""⟩⟩
      false true =
      Except.ok [ReviewEvent.info "No changes found to review."] :=
  stream_review_empty_diff _ false true rfl

theorem run_flake8_files (flake8 : String → CmdResult) (files : List String) :
    (run_flake8_on_files flake8 files).map (fun r => r.file) =
      files.filter (fun f => pyEndsWith f ".py") := by
  induction files with
  | nil => rfl
  | cons f fs ih =>
    by_cases h : pyEndsWith f ".py" = true
    · simp [run_flake8_on_files, List.filter_cons, h, ih]
    · simp [run_flake8_on_files, List.filter_cons, h, ih]

theorem run_bug_checks_files (pylint : String → CmdResult) (files : List String) :
    (run_bug_checks pylint files).map (fun r => r.file) =
      files.filter (fun f => pyEndsWith f ".py") := by
  induction files with
  | nil => rfl
  | cons f fs ih =>
    by_cases h : pyEndsWith f ".py" = true
    · simp [run_bug_checks, List.filter_cons, h, ih]
    · simp [run_bug_checks, List.filter_cons, h, ih]

theorem auto_fix_files_files (autopep8 : String → CmdResult) (files : List String) :
    (auto_fix_files autopep8 files).map (fun r => r.file) =
      files.filter (fun f => pyEndsWith f ".py") := by
  induction files with
  | nil => rfl
  | cons f fs ih =>
    by_cases h : pyEndsWith f ".py" = true
    · by_cases hc : (autopep8 f).code = 0 <;>
        simp [auto_fix_files, List.filter_cons, h, hc, ih]
    · simp [auto_fix_files, List.filter_cons, h, ih]

/-- C9: for every changed-file list, the lint, bug-check and autofix runners
each yield exactly one record per file ending in ".py" (in input order, taken
from that file) and no record for any other file; in particular on
["a.py", "b.txt"] each runner yields exactly one record, for "a.py". -/
theorem runners_one_record_per_py_file (flake8 pylint autopep8 : String → CmdResult)
    (files : List String) :
    (run_flake8_on_files flake8 files).map (fun r => r.file) =
      files.filter (fun f => pyEndsWith f ".py") ∧
    (run_bug_checks pylint files).map (fun r => r.file) =
      files.filter (fun f => pyEndsWith f ".py") ∧
    (auto_fix_files autopep8 files).map (fun r => r.file) =
      files.filter (fun f => pyEndsWith f ".py") ∧
    (run_flake8_on_files flake8 ["a.py", "b.txt"]).map (fun r => r.file) = ["a.py"] ∧
    (run_bug_checks pylint ["a.py", "b.txt"]).map (fun r => r.file) = ["a.py"] ∧
    (auto_fix_files autopep8 ["a.py", "b.txt"]).map (fun r => r.file) = ["a.py"] := by
  have hconc : (["a.py", "b.txt"] : List String).filter (fun f => pyEndsWith f ".py") =
      ["a.py"] := by decide
  refine ⟨run_flake8_files flake8 files, run_bug_checks_files pylint files,
    auto_fix_files_files autopep8 files, ?_, ?_, ?_⟩
  · rw [run_flake8_files flake8 ["a.py", "b.txt"], hconc]
  · rw [run_bug_checks_files pylint ["a.py", "b.txt"], hconc]
  · rw [auto_fix_files_files autopep8 ["a.py", "b.txt"], hconc]

/-- Shape of a review run with a non-empty diff: the exact event sequence as a
function of the environment. -/
theorem stream_review_shape (env : ReviewEnv) (staged auto_fix : Bool) (d : String)
    (hdiff : get_git_diff (if staged then env.diffCached else env.diffHead) = Except.ok d)
    (hne : d ≠ "") :
    stream_review env staged auto_fix = Except.ok
      ([ReviewEvent.originalDiff d,
        ReviewEvent.changedFiles (changedFilesOf env.nameOnly.out)]
        ++ (run_flake8_on_files env.flake8 (changedFilesOf env.nameOnly.out)).map
            (fun r => ReviewEvent.lint "before_fix" r.file r.output r.returncode)
        ++ (run_bug_checks env.pylint (changedFilesOf env.nameOnly.out)).map
            (fun r => ReviewEvent.bugcheck "before_fix" r.file r.output r.returncode)
        ++ (if auto_fix then
              [ReviewEvent.info "Applying automatic fixes..."]
              ++ (auto_fix_files env.autopep8 (changedFilesOf env.nameOnly.out)).map
                  (fun r => ReviewEvent.autofix r.file r.fixed r.output r.returncode)
              ++ [ReviewEvent.info "Re-running checks after fixes..."]
              ++ (run_flake8_on_files env.flake8After (changedFilesOf env.nameOnly.out)).map
                  (fun r => ReviewEvent.lint "after_fix" r.file r.output r.returncode)
              ++ (run_bug_checks env.pylintAfter (changedFilesOf env.nameOnly.out)).map
                  (fun r => ReviewEvent.bugcheck "after_fix" r.file r.output r.returncode)
              ++ postFixTail env staged
            else [])) := by
  unfold stream_review
  rw [hdiff]
  show (if d = "" then Except.ok [ReviewEvent.info "No changes found to review."]
    else _) = _
  rw [if_neg hne]

theorem postFixTail_ok (env : ReviewEnv) (staged : Bool) (pd : String)
    (h : get_git_diff (if staged then env.postDiffCached else env.postDiffHead) =
      Except.ok pd)
    (hne : pd ≠ "") : postFixTail env staged = [ReviewEvent.postFixDiff pd] := by
  unfold postFixTail
  rw [h]
  show (if pd ≠ "" then [ReviewEvent.postFixDiff pd] else []) = _
  rw [if_pos hne]

theorem postFixTail_err (env : ReviewEnv) (staged : Bool) (e : String)
    (h : get_git_diff (if staged then env.postDiffCached else env.postDiffHead) =
      Except.error e) :
    postFixTail env staged = [ReviewEvent.warning ("Could not get post-fix diff: " ++ e)] := by
  unfold postFixTail
  rw [h]

/-- C5: with auto-fix enabled, a non-empty diff, exactly one changed file that
is a Python file, and autofix exit code 0, the stream contains in this order:
original_diff, changed_files, lint(before_fix), bugcheck(before_fix),
autofix(fixed = true), lint(after_fix), bugcheck(after_fix); if the recomputed
diff succeeds and is non-empty the ordered sequence extends with a final
post_fix_diff event, and a failed recomputation yields a warning event instead
of an exception. -/
theorem stream_review_autofix_sequence (env : ReviewEnv) (staged : Bool) (d f : String)
    (hdiff : get_git_diff (if staged then env.diffCached else env.diffHead) = Except.ok d)
    (hne : d ≠ "")
    (hfiles : changedFilesOf env.nameOnly.out = [f])
    (hpy : pyEndsWith f ".py" = true)
    (hfix : (env.autopep8 f).code = 0) :
    ∃ events, stream_review env staged true = Except.ok events ∧
      List.Sublist
        [ReviewEvent.originalDiff d,
          ReviewEvent.changedFiles [f],
          ReviewEvent.lint "before_fix" f (pyStrip (env.flake8 f).out) (env.flake8 f).code,
          ReviewEvent.bugcheck "before_fix" f (pyStrip (env.pylint f).out) (env.pylint f).code,
          ReviewEvent.autofix f true (pyStrip (env.autopep8 f).out) none,
          ReviewEvent.lint "after_fix" f (pyStrip (env.flake8After f).out) (env.flake8After f).code,
          ReviewEvent.bugcheck "after_fix" f
            (pyStrip (env.pylintAfter f).out) (env.pylintAfter f).code]
        events ∧
      (∀ pd, get_git_diff (if staged then env.postDiffCached else env.postDiffHead) =
          Except.ok pd → pd ≠ "" →
        List.Sublist
          [ReviewEvent.originalDiff d,
            ReviewEvent.changedFiles [f],
            ReviewEvent.lint "before_fix" f (pyStrip (env.flake8 f).out) (env.flake8 f).code,
            ReviewEvent.bugcheck "before_fix" f (pyStrip (env.pylint f).out) (env.pylint f).code,
            ReviewEvent.autofix f true (pyStrip (env.autopep8 f).out) none,
            ReviewEvent.lint "after_fix" f (pyStrip (env.flake8After f).out) (env.flake8After f).code,
            ReviewEvent.bugcheck "after_fix" f
              (pyStrip (env.pylintAfter f).out) (env.pylintAfter f).code,
            ReviewEvent.postFixDiff pd]
          events) ∧
      (∀ e, get_git_diff (if staged then env.postDiffCached else env.postDiffHead) =
          Except.error e →
        ReviewEvent.warning ("Could not get post-fix diff: " ++ e) ∈ events) := by
  have hshape := stream_review_shape env staged true d hdiff hne
  rw [hfiles] at hshape
  have hl : run_flake8_on_files env.flake8 [f] =
      [{ file := f, output := pyStrip (env.flake8 f).out, returncode := (env.flake8 f).code }] := by
    simp [run_flake8_on_files, hpy]
  have hlA : run_flake8_on_files env.flake8After [f] =
      [{ file := f, output := pyStrip (env.flake8After f).out,
          returncode := (env.flake8After f).code }] := by
    simp [run_flake8_on_files, hpy]
  have hb : run_bug_checks env.pylint [f] =
      [{ file := f, output := pyStrip (env.pylint f).out, returncode := (env.pylint f).code }] := by
    simp [run_bug_checks, hpy]
  have hbA : run_bug_checks env.pylintAfter [f] =
      [{ file := f, output := pyStrip (env.pylintAfter f).out,
          returncode := (env.pylintAfter f).code }] := by
    simp [run_bug_checks, hpy]
  have ha : auto_fix_files env.autopep8 [f] =
      [{ file := f, fixed := true, output := pyStrip (env.autopep8 f).out,
          returncode := none }] := by
    simp [auto_fix_files, hpy, hfix]
  rw [hl, hlA, hb, hbA, ha] at hshape
  simp only [List.map_cons, List.map_nil, if_true, List.singleton_append,
    List.cons_append, List.nil_append, List.append_assoc] at hshape
  refine ⟨_, hshape, ?_, ?_, ?_⟩
  · apply List.Sublist.cons₂
    apply List.Sublist.cons₂
    apply List.Sublist.cons₂
    apply List.Sublist.cons₂
    apply List.Sublist.cons
    apply List.Sublist.cons₂
    apply List.Sublist.cons
    apply List.Sublist.cons₂
    apply List.Sublist.cons₂
    exact List.nil_sublist _
  · intro pd hpd hpdne
    rw [postFixTail_ok env staged pd hpd hpdne]
    apply List.Sublist.cons₂
    apply List.Sublist.cons₂
    apply List.Sublist.cons₂
    apply List.Sublist.cons₂
    apply List.Sublist.cons
    apply List.Sublist.cons₂
    apply List.Sublist.cons
    apply List.Sublist.cons₂
    apply List.Sublist.cons₂
    exact List.Sublist.refl _
  · intro e he
    rw [postFixTail_err env staged e he]
    simp

/-- Environment for the C5 witness: one changed Python file, lint findings
before the fix, autopep8 exit code 0, and a non-empty recomputed diff. -/
def sampleEnvAutofix : ReviewEnv :=
  { diffHead := ⟨0, "diff --git a/a.py b/a.py", ""⟩
    diffCached := ⟨0, "", ""⟩
    nameOnly := ⟨0, "a.py\n", ""⟩
    flake8 := fun _ => ⟨1, "a.py:1:1: E302 expected 2 blank lines", ""⟩
    pylint := fun _ => ⟨4, "a.py:1:0: W0611 unused import", ""⟩
    autopep8 := fun _ => ⟨0, "", ""⟩
    flake8After := fun _ => ⟨0, "", ""⟩
    pylintAfter := fun _ => ⟨0, "", ""⟩
    postDiffHead := ⟨0, "diff --git a/a.py b/a.py\n+fixed", ""⟩
    postDiffCached := ⟨0, "", ""⟩ }

/-- C5 witness: the concrete environment realises the full ordered sequence,
ending in the post-fix diff event. -/
theorem stream_review_autofix_sequence_witness :
    ∃ events, stream_review sampleEnvAutofix false true = Except.ok events ∧
      List.Sublist
        [ReviewEvent.originalDiff "diff --git a/a.py b/a.py",
          ReviewEvent.changedFiles ["a.py"],
          ReviewEvent.lint "before_fix" "a.py" "a.py:1:1: E302 expected 2 blank lines" 1,
          ReviewEvent.bugcheck "before_fix" "a.py" "a.py:1:0: W0611 unused import" 4,
          ReviewEvent.autofix "a.py" true "" none,
          ReviewEvent.lint "after_fix" "a.py" "" 0,
          ReviewEvent.bugcheck "after_fix" "a.py" "" 0,
          ReviewEvent.postFixDiff "diff --git a/a.py b/a.py\n+fixed"]
        events := by
  obtain ⟨events, h1, h2, h3, h4⟩ :=
    stream_review_autofix_sequence sampleEnvAutofix false
      "diff --git a/a.py b/a.py" "a.py" rfl (by decide) (by decide) (by decide) rfl
  exact ⟨events, h1, h3 "diff --git a/a.py b/a.py\n+fixed" rfl (by decide)⟩

/-- C10: in every run with a non-empty diff — for either value of the staged
flag — the changed_files event carries exactly the list computed from the
stdout of `git diff --name-only HEAD` (the staged flag plays no role in it),
the lint and bug-check runners consume that same HEAD-relative list, no other
changed_files event occurs in the remainder of the stream, and when auto-fix
is enabled the remainder is exactly the autofix run, the after-fix lint and
bug-check re-runs — all three over that same HEAD-relative list — followed by
the post-fix diff step (when auto-fix is off the remainder is empty). -/
theorem stream_review_changed_files_from_head (env : ReviewEnv) (staged auto_fix : Bool)
    (d : String)
    (hdiff : get_git_diff (if staged then env.diffCached else env.diffHead) = Except.ok d)
    (hne : d ≠ "") :
    ∃ rest, stream_review env staged auto_fix = Except.ok
      ([ReviewEvent.originalDiff d,
        ReviewEvent.changedFiles (changedFilesOf env.nameOnly.out)]
        ++ (run_flake8_on_files env.flake8 (changedFilesOf env.nameOnly.out)).map
            (fun r => ReviewEvent.lint "before_fix" r.file r.output r.returncode)
        ++ (run_bug_checks env.pylint (changedFilesOf env.nameOnly.out)).map
            (fun r => ReviewEvent.bugcheck "before_fix" r.file r.output r.returncode)
        ++ rest) ∧
      (∀ fs, ReviewEvent.changedFiles fs ∈ rest → False) ∧
      (auto_fix = true → rest =
        [ReviewEvent.info "Applying automatic fixes..."]
        ++ (auto_fix_files env.autopep8 (changedFilesOf env.nameOnly.out)).map
            (fun r => ReviewEvent.autofix r.file r.fixed r.output r.returncode)
        ++ [ReviewEvent.info "Re-running checks after fixes..."]
        ++ (run_flake8_on_files env.flake8After (changedFilesOf env.nameOnly.out)).map
            (fun r => ReviewEvent.lint "after_fix" r.file r.output r.returncode)
        ++ (run_bug_checks env.pylintAfter (changedFilesOf env.nameOnly.out)).map
            (fun r => ReviewEvent.bugcheck "after_fix" r.file r.output r.returncode)
        ++ postFixTail env staged) ∧
      (auto_fix = false → rest = []) := by
  refine ⟨_, stream_review_shape env staged auto_fix d hdiff hne, ?_, ?_, ?_⟩
  · intro fs hmem
    by_cases haf : auto_fix = true
    · rw [if_pos haf] at hmem
      unfold postFixTail at hmem
      cases hgp : get_git_diff (if staged then env.postDiffCached else env.postDiffHead) with
      | ok pd =>
        rw [hgp] at hmem
        by_cases hpd : pd ≠ ""
        · simp only [if_pos hpd] at hmem
          simp at hmem
        · simp only [if_neg hpd] at hmem
          simp at hmem
      | error e =>
        rw [hgp] at hmem
        simp at hmem
    · rw [if_neg haf] at hmem
      simp at hmem
  · intro haf
    rw [if_pos haf]
  · intro haf
    simp [haf]

/-- Environment for the C10 witness: staged mode, a staged diff that touches
only `a.py`, while the working tree also has an unstaged change to `b.py`, so
`git diff --name-only HEAD` lists both files. -/
def sampleEnvStagedMismatch : ReviewEnv :=
  { diffHead := ⟨0, "", ""⟩
    diffCached := ⟨0, "diff --git a/a.py b/a.py\n+staged change", ""⟩
    nameOnly := ⟨0, "a.py\nb.py\n", ""⟩
    flake8 := fun _ => ⟨0, "", ""⟩
    pylint := fun _ => ⟨0, "", ""⟩
    autopep8 := fun _ => ⟨0, "", ""⟩
    flake8After := fun _ => ⟨0, "", ""⟩
    pylintAfter := fun _ => ⟨0, "", ""⟩
    postDiffHead := ⟨0, "", ""⟩
    postDiffCached := ⟨0, "", ""⟩ }

/-- C10 witness: a staged auto-fix run. The emitted file list is the
HEAD-relative ["a.py", "b.py"], of which "b.py" has only unstaged changes and
does not occur in the staged diff text at all; the autofix runner operates on
that same HEAD-relative list, producing a record for both files. -/
theorem stream_review_changed_files_from_head_witness :
    (∃ rest, stream_review sampleEnvStagedMismatch true true = Except.ok
      ([ReviewEvent.originalDiff "diff --git a/a.py b/a.py\n+staged change",
        ReviewEvent.changedFiles (changedFilesOf sampleEnvStagedMismatch.nameOnly.out)]
        ++ (run_flake8_on_files sampleEnvStagedMismatch.flake8
            (changedFilesOf sampleEnvStagedMismatch.nameOnly.out)).map
            (fun r => ReviewEvent.lint "before_fix" r.file r.output r.returncode)
        ++ (run_bug_checks sampleEnvStagedMismatch.pylint
            (changedFilesOf sampleEnvStagedMismatch.nameOnly.out)).map
            (fun r => ReviewEvent.bugcheck "before_fix" r.file r.output r.returncode)
        ++ rest) ∧
      (∀ fs, ReviewEvent.changedFiles fs ∈ rest → False) ∧
      (true = true → rest =
        [ReviewEvent.info "Applying automatic fixes..."]
        ++ (auto_fix_files sampleEnvStagedMismatch.autopep8
            (changedFilesOf sampleEnvStagedMismatch.nameOnly.out)).map
            (fun r => ReviewEvent.autofix r.file r.fixed r.output r.returncode)
        ++ [ReviewEvent.info "Re-running checks after fixes..."]
        ++ (run_flake8_on_files sampleEnvStagedMismatch.flake8After
            (changedFilesOf sampleEnvStagedMismatch.nameOnly.out)).map
            (fun r => ReviewEvent.lint "after_fix" r.file r.output r.returncode)
        ++ (run_bug_checks sampleEnvStagedMismatch.pylintAfter
            (changedFilesOf sampleEnvStagedMismatch.nameOnly.out)).map
            (fun r => ReviewEvent.bugcheck "after_fix" r.file r.output r.returncode)
        ++ postFixTail sampleEnvStagedMismatch true) ∧
      (true = false → rest = [])) ∧
    changedFilesOf sampleEnvStagedMismatch.nameOnly.out = ["a.py", "b.py"] ∧
    strContains sampleEnvStagedMismatch.diffCached.out "b.py" = false ∧
    (auto_fix_files sampleEnvStagedMismatch.autopep8
        (changedFilesOf sampleEnvStagedMismatch.nameOnly.out)).map (fun r => r.file) =
      ["a.py", "b.py"] :=
  ⟨stream_review_changed_files_from_head sampleEnvStagedMismatch true true
      "diff --git a/a.py b/a.py\n+staged change" rfl (by decide),
    by decide, by decide, by decide⟩

/-! ### Indexing with auto-reset (app/indexer.py, `index_repo`) -/

/-- A vector-store collection modelled as an association list from chunk id to
the stored embedding: `none` for a null embedding, `some len` for a vector of
length `len` (only presence and vector length matter to `index_repo`). -/
abbrev ChromaCol := List (String × Option Nat)

/-- `col.get(ids=[cid])`: the stored entry for a chunk id, if present. -/
def colLookup : ChromaCol → String → Option (Option Nat)
  | [], _ => none
  | (k, w) :: rest, cid => if k = cid then some w else colLookup rest cid

/-- `col.upsert(ids=[cid], embeddings=[emb])`: overwrite or insert. -/
def colUpsert : ChromaCol → String → Option Nat → ChromaCol
  | [], cid, v => [(cid, v)]
  | (k, w) :: rest, cid, v =>
    if k = cid then (cid, v) :: rest else (k, w) :: colUpsert rest cid v

/-- The well-formedness check used in both passes of `index_repo`: the entry is
present, non-null, and its vector length equals the probed dimension
(`len(emb) == EMB_DIM`). -/
def entryOk (col : ChromaCol) (embDim : Nat) (cid : String) : Bool :=
  match colLookup col cid with
  | some (some len) => len == embDim
  | _ => false

/-- One worklist item of `index_repo`: `(fname, chunk, cid)`. -/
structure WorkItem where
  fname : String
  chunk : String
  cid : String

/-- Pass 1 (app/indexer.py lines 106-136): number of worklist ids assessed
broken (missing or malformed). Batching in groups of 256 does not change the
per-id classification and is not modelled. -/
def assessBroken (col : ChromaCol) (embDim : Nat) (ids : List String) : Nat :=
  (ids.filter (fun cid => !entryOk col embDim cid)).length

/-- Pass 1: number of worklist ids assessed well-formed. -/
def assessOk (col : ChromaCol) (embDim : Nat) (ids : List String) : Nat :=
  (ids.filter (fun cid => entryOk col embDim cid)).length

/-- `broken_ratio = (broken / total_seen) if total_seen else 0.0`
(float division modelled as exact rational division). -/
def brokenFrac (broken total : Nat) : ℚ :=
  if total = 0 then 0 else (broken : ℚ) / (total : ℚ)

/-- Pass 2 (app/indexer.py lines 144-169): walk the worklist against the
current collection; skip present-and-well-formed entries, re-embed and upsert
the rest (`encode` gives the length of `model.encode(chunk).tolist()`).
Returns the final collection and the upserted ids in order. -/
def pass2 (embDim : Nat) (encode : String → Nat) :
    List WorkItem → ChromaCol → ChromaCol × List String
  | [], col => (col, [])
  | w :: rest, col =>
    if entryOk col embDim w.cid then pass2 embDim encode rest col
    else
      ((pass2 embDim encode rest (colUpsert col w.cid (some (encode w.chunk)))).1,
        w.cid :: (pass2 embDim encode rest (colUpsert col w.cid (some (encode w.chunk)))).2)

/-- The observable outcome of one `index_repo` run over an existing
collection. -/
structure IndexRun where
  resetDone : Bool
  colBeforeUpserts : ChromaCol
  finalCol : ChromaCol
  upserted : List String

/-- The assessment/reset/upsert core of `index_repo` (app/indexer.py lines
96-169), over the prepared worklist, the existing collection, the probed
embedding dimension, the reset threshold (`RESET_THRESHOLD`, default 0.6 =
3/5, configurable via `CHROMA_RESET_THRESHOLD`) and the embedding oracle. The
collection is dropped and recreated empty exactly when at least one id was
assessed and the broken ratio reaches the threshold; otherwise the existing
collection is reused and repaired incrementally. -/
def index_repo_core (worklist : List WorkItem) (col : ChromaCol) (embDim : Nat)
    (threshold : ℚ) (encode : String → Nat) : IndexRun :=
  if 0 < assessBroken col embDim (worklist.map (fun w => w.cid)) +
        assessOk col embDim (worklist.map (fun w => w.cid)) ∧
      threshold ≤ brokenFrac (assessBroken col embDim (worklist.map (fun w => w.cid)))
        (assessBroken col embDim (worklist.map (fun w => w.cid)) +
          assessOk col embDim (worklist.map (fun w => w.cid))) then
    { resetDone := true
      colBeforeUpserts := []
      finalCol := (pass2 embDim encode worklist []).1
      upserted := (pass2 embDim encode worklist []).2 }
  else
    { resetDone := false
      colBeforeUpserts := col
      finalCol := (pass2 embDim encode worklist col).1
      upserted := (pass2 embDim encode worklist col).2 }

theorem colLookup_upsert_ne (col : ChromaCol) (k cid : String) (v : Option Nat)
    (h : k ≠ cid) : colLookup (colUpsert col k v) cid = colLookup col cid := by
  induction col with
  | nil => simp [colUpsert, colLookup, h]
  | cons p rest ih =>
    obtain ⟨k', w⟩ := p
    by_cases hk : k' = k
    · subst hk
      simp [colUpsert, colLookup, h]
    · simp [colUpsert, colLookup, hk, ih]

theorem entryOk_upsert_ne (col : ChromaCol) (embDim : Nat) (k cid : String)
    (v : Option Nat) (h : k ≠ cid) :
    entryOk (colUpsert col k v) embDim cid = entryOk col embDim cid := by
  unfold entryOk
  rw [colLookup_upsert_ne col k cid v h]

theorem pass2_ok_preserved (embDim : Nat) (encode : String → Nat) :
    ∀ (wl : List WorkItem) (col : ChromaCol) (cid : String),
      entryOk col embDim cid = true →
      entryOk (pass2 embDim encode wl col).1 embDim cid = true ∧
      cid ∉ (pass2 embDim encode wl col).2 := by
  intro wl
  induction wl with
  | nil =>
    intro col cid h
    exact ⟨h, by simp [pass2]⟩
  | cons w rest ih =>
    intro col cid h
    by_cases hw : entryOk col embDim w.cid = true
    · simp only [pass2, if_pos hw]
      exact ih col cid h
    · have hne : w.cid ≠ cid := fun he => hw (he ▸ h)
      have h2 : entryOk (colUpsert col w.cid (some (encode w.chunk))) embDim cid = true := by
        rw [entryOk_upsert_ne col embDim w.cid cid _ hne]
        exact h
      have hrec := ih (colUpsert col w.cid (some (encode w.chunk))) cid h2
      simp only [pass2, if_neg hw]
      refine ⟨hrec.1, ?_⟩
      intro hmem
      rcases List.mem_cons.mp hmem with he | he
      · exact hne he.symm
      · exact hrec.2 he

theorem pass2_upserted_broken (embDim : Nat) (encode : String → Nat) :
    ∀ (wl : List WorkItem) (col : ChromaCol) (cid : String),
      cid ∈ (pass2 embDim encode wl col).2 → entryOk col embDim cid = false := by
  intro wl
  induction wl with
  | nil =>
    intro col cid h
    simp [pass2] at h
  | cons w rest ih =>
    intro col cid h
    by_cases hw : entryOk col embDim w.cid = true
    · simp only [pass2, if_pos hw] at h
      exact ih col cid h
    · simp only [pass2, if_neg hw] at h
      rcases List.mem_cons.mp h with he | he
      · subst he
        exact Bool.eq_false_iff.mpr hw
      · have hthis := ih (colUpsert col w.cid (some (encode w.chunk))) cid he
        by_cases hcid : w.cid = cid
        · subst hcid
          exact Bool.eq_false_iff.mpr hw
        · rw [entryOk_upsert_ne col embDim w.cid cid _ hcid] at hthis
          exact hthis

theorem pass2_broken_upserted (embDim : Nat) (encode : String → Nat) :
    ∀ (wl : List WorkItem) (col : ChromaCol) (w : WorkItem),
      w ∈ wl → entryOk col embDim w.cid = false →
      w.cid ∈ (pass2 embDim encode wl col).2 := by
  intro wl
  induction wl with
  | nil =>
    intro col w h
    cases h
  | cons w0 rest ih =>
    intro col w hmem hbroken
    by_cases hw : entryOk col embDim w0.cid = true
    · simp only [pass2, if_pos hw]
      rcases List.mem_cons.mp hmem with he | he
      · subst he
        rw [hbroken] at hw
        cases hw
      · exact ih col w he hbroken
    · simp only [pass2, if_neg hw]
      by_cases hcid : w.cid = w0.cid
      · rw [hcid]
        exact List.mem_cons_self _ _
      · apply List.mem_cons_of_mem
        rcases List.mem_cons.mp hmem with he | he
        · subst he
          exact absurd rfl hcid
        · apply ih _ w he
          rw [entryOk_upsert_ne col embDim w0.cid w.cid _ (fun hh => hcid hh.symm)]
          exact hbroken

/-- C1: over the assessed worklist ids, if at least one id was assessed and
`broken / (broken + ok)` reaches the threshold, the collection entering the
upsert pass is the freshly recreated empty one (reset performed before any
upsert); if the ratio is strictly below the threshold, the existing collection
is reused (no reset), every upserted id was assessed missing or malformed,
every worklist entry assessed missing or malformed is re-embedded and
written, and every well-formed id is skipped. -/
theorem index_repo_reset_policy (worklist : List WorkItem) (col : ChromaCol)
    (embDim : Nat) (threshold : ℚ) (encode : String → Nat) :
    (0 < assessBroken col embDim (worklist.map (fun w => w.cid)) +
        assessOk col embDim (worklist.map (fun w => w.cid)) →
      threshold ≤ brokenFrac (assessBroken col embDim (worklist.map (fun w => w.cid)))
        (assessBroken col embDim (worklist.map (fun w => w.cid)) +
          assessOk col embDim (worklist.map (fun w => w.cid))) →
      (index_repo_core worklist col embDim threshold encode).resetDone = true ∧
      (index_repo_core worklist col embDim threshold encode).colBeforeUpserts = []) ∧
    (brokenFrac (assessBroken col embDim (worklist.map (fun w => w.cid)))
        (assessBroken col embDim (worklist.map (fun w => w.cid)) +
          assessOk col embDim (worklist.map (fun w => w.cid))) < threshold →
      (index_repo_core worklist col embDim threshold encode).resetDone = false ∧
      (index_repo_core worklist col embDim threshold encode).colBeforeUpserts = col ∧
      (∀ cid ∈ (index_repo_core worklist col embDim threshold encode).upserted,
        entryOk col embDim cid = false) ∧
      (∀ w ∈ worklist, entryOk col embDim w.cid = false →
        w.cid ∈ (index_repo_core worklist col embDim threshold encode).upserted) ∧
      (∀ w ∈ worklist, entryOk col embDim w.cid = true →
        w.cid ∉ (index_repo_core worklist col embDim threshold encode).upserted)) := by
  constructor
  · intro hpos hge
    unfold index_repo_core
    rw [if_pos ⟨hpos, hge⟩]
    exact ⟨rfl, rfl⟩
  · intro hlt
    have hcond : ¬(0 < assessBroken col embDim (worklist.map (fun w => w.cid)) +
        assessOk col embDim (worklist.map (fun w => w.cid)) ∧
      threshold ≤ brokenFrac (assessBroken col embDim (worklist.map (fun w => w.cid)))
        (assessBroken col embDim (worklist.map (fun w => w.cid)) +
          assessOk col embDim (worklist.map (fun w => w.cid)))) := by
      rintro ⟨h1, h2⟩
      exact absurd h2 (not_le.mpr hlt)
    unfold index_repo_core
    rw [if_neg hcond]
    refine ⟨rfl, rfl, ?_, ?_, ?_⟩
    · intro cid hcid
      exact pass2_upserted_broken embDim encode worklist col cid hcid
    · intro w hw hbroken
      exact pass2_broken_upserted embDim encode worklist col w hw hbroken
    · intro w hw hok
      exact (pass2_ok_preserved embDim encode worklist col w.cid hok).2

/-- C1 witness: a one-chunk worklist against an empty collection (ratio 1 ≥
0.6: reset) and against a healthy collection (ratio 0 < 0.6: reuse, nothing
upserted). -/
theorem index_repo_reset_policy_witness :
    ((index_repo_core [⟨"readme.md", "hello", "id1"⟩] [] 384 (3/5)
        (fun _ => 384)).resetDone = true ∧
      (index_repo_core [⟨"readme.md", "hello", "id1"⟩] [] 384 (3/5)
        (fun _ => 384)).colBeforeUpserts = []) ∧
    ((index_repo_core [⟨"readme.md", "hello", "id1"⟩] [("id1", some 384)] 384 (3/5)
        (fun _ => 384)).resetDone = false ∧
      (index_repo_core [⟨"readme.md", "hello", "id1"⟩] [("id1", some 384)] 384 (3/5)
        (fun _ => 384)).colBeforeUpserts = [("id1", some 384)] ∧
      (∀ cid ∈ (index_repo_core [⟨"readme.md", "hello", "id1"⟩] [("id1", some 384)] 384 (3/5)
        (fun _ => 384)).upserted, entryOk [("id1", some 384)] 384 cid = false) ∧
      (∀ w ∈ [(⟨"readme.md", "hello", "id1"⟩ : WorkItem)],
        entryOk [("id1", some 384)] 384 w.cid = false →
        w.cid ∈ (index_repo_core [⟨"readme.md", "hello", "id1"⟩] [("id1", some 384)] 384 (3/5)
          (fun _ => 384)).upserted) ∧
      (∀ w ∈ [(⟨"readme.md", "hello", "id1"⟩ : WorkItem)],
        entryOk [("id1", some 384)] 384 w.cid = true →
        w.cid ∉ (index_repo_core [⟨"readme.md", "hello", "id1"⟩] [("id1", some 384)] 384 (3/5)
          (fun _ => 384)).upserted)) :=
  ⟨(index_repo_reset_policy [⟨"readme.md", "hello", "id1"⟩] [] 384 (3/5)
      (fun _ => 384)).1 (by decide)
      (by show (3/5 : ℚ) ≤ brokenFrac 1 (1 + 0); norm_num [brokenFrac]),
    (index_repo_reset_policy [⟨"readme.md", "hello", "id1"⟩] [("id1", some 384)] 384 (3/5)
      (fun _ => 384)).2
      (by show brokenFrac 0 (0 + 1) < (3/5 : ℚ); norm_num [brokenFrac])⟩

/-! ### QnA flow (app/qna.py `prepare_qna_inputs`, app/main.py `qna`) -/

/-- A retrieved context chunk (text plus metadata). -/
structure RetrievedChunk where
  text : String
  repo : String
  path : String
deriving DecidableEq

/-- The external effects seen by one QnA request: whether `index_repo`
succeeded, what `retrieve_docs` would return, and the LLM's answer per
prompt. -/
structure QnaEnv where
  indexOk : Bool
  retrieved : List RetrievedChunk
  llm : String → String

/-- The value returned by `prepare_qna_inputs`. -/
structure QnaPrepared where
  query : String
  context : List RetrievedChunk

/-- `prepare_qna_inputs` (app/qna.py lines 5-26): if indexing failed, return
the query with an empty context and skip retrieval; otherwise return the
retrieved chunks. -/
def prepare_qna_inputs (env : QnaEnv) (query : String) : QnaPrepared :=
  if env.indexOk then { query := query, context := env.retrieved }
  else { query := query, context := [] }

/-- Python `sep.join(parts)`. -/
def joinSep (sep : String) : List String → String
  | [] => ""
  | [s] => s
  | s :: rest => s ++ sep ++ joinSep sep rest

/-- The outcome of the `/qna` endpoint body when no exception escapes: the
answer, the chunks returned to the client, and whether `call_llm` was invoked
during the request. -/
structure QnaOutcome where
  answer : String
  topChunks : List RetrievedChunk
  llmCalled : Bool

/-- The `/qna` endpoint body (app/main.py lines 83-116): prepare inputs, take
the first `top_k` context chunks, build the grounding prompt over them, and
call the LLM unconditionally — also when the context is empty. -/
def qna_endpoint (env : QnaEnv) (query : String) (top_k : Nat) : QnaOutcome :=
  let prepared := prepare_qna_inputs env query
  let top_chunks := prepared.context.take top_k
  let context_text := joinSep "\n\n---\n\n"
    (top_chunks.enum.map (fun p => "CHUNK " ++ toString (p.1 + 1) ++ ":\n" ++ p.2.text))
  let prompt :=
    "You are an expert software assistant. I will provide you with README-like content,\n"
    ++ "and you need to answer a question about it.\n\nQuestion: " ++ query
    ++ "\n\nHere is the content:\n" ++ context_text
    ++ "\n\nBased strictly on the content above, answer clearly.\n"
    ++ "If you cannot find the answer, say:\n"
    ++ "\"I cannot find the relevant information in the README content.\"\n\nAnswer:"
  { answer := env.llm prompt, topChunks := top_chunks, llmCalled := true }

/-- C6 counterexample: a request on which indexing fails. The prepared context
is empty as claimed, but the `/qna` endpoint still invokes the LLM chat
completion on the empty context — refuting the claim that the LLM is not
called for that request. -/
theorem qna_index_failure_counterexample :
    (⟨false, [⟨"some text", "r", "readme.md"⟩], fun _ => "answer"⟩ : QnaEnv).indexOk
      = false ∧
    (prepare_qna_inputs ⟨false, [⟨"some text", "r", "readme.md"⟩], fun _ => "answer"⟩
      "how to install?").context = [] ∧
    (qna_endpoint ⟨false, [⟨"some text", "r", "readme.md"⟩], fun _ => "answer"⟩
      "how to install?" 5).llmCalled = true :=
  ⟨rfl, rfl, rfl⟩

/-- C6 (amended): when indexing fails (`index_repo` returns false),
`prepare_qna_inputs` returns an empty context set and skips retrieval, and the
endpoint returns no chunks — but the LLM chat completion service IS still
called by the `/qna` endpoint, with a prompt over the empty context. -/
theorem qna_index_failure_empty_context (env : QnaEnv) (query : String) (top_k : Nat)
    (h : env.indexOk = false) :
    (prepare_qna_inputs env query).context = [] ∧
    (qna_endpoint env query top_k).topChunks = [] ∧
    (qna_endpoint env query top_k).llmCalled = true := by
  have hprep : prepare_qna_inputs env query = { query := query, context := [] } := by
    unfold prepare_qna_inputs
    rw [h]
    rfl
  refine ⟨by rw [hprep], ?_, rfl⟩
  show ((prepare_qna_inputs env query).context.take top_k) = []
  rw [hprep]
  exact List.take_nil

/-- C6 witness: concrete failing-index environment. -/
theorem qna_index_failure_empty_context_witness :
    (prepare_qna_inputs ⟨false, [], fun _ => "a"⟩ "q").context = [] ∧
    (qna_endpoint ⟨false, [], fun _ => "a"⟩ "q" 3).topChunks = [] ∧
    (qna_endpoint ⟨false, [], fun _ => "a"⟩ "q" 3).llmCalled = true :=
  qna_index_failure_empty_context ⟨false, [], fun _ => "a"⟩ "q" 3 rfl
